import Mathlib

/-!
Shallow embedding of `mergekit/sparsify.py` (sparsification masks and
consensus masks for weight-delta tensors), together with proofs about the
claims of the specification.

Modelling conventions:
* Tensors are flattened into `List ℚ`; every strategy except
  `rank_magnitude` operates on the flattened view (`view(-1)`) in the
  source, so element order is all that matters.  `rank_magnitude` is
  row-wise, so it is modelled on `Tensor2` (rank-1 or rank-2 tensors).
* Floating point values are modelled by exact rationals.  The `.float()`
  up-casts of the source are value-preserving, so they disappear.  The
  float literal `1e-8` is modelled by the rational `1/10^8`.
* The only IEEE artefact the claims depend on is the `0/0` produced by
  `rank_magnitude`'s rank normalisation on single-element rows: a NaN
  probability makes `torch.bernoulli` raise.  Division nodes whose
  divisor is zero are therefore modelled as a failure (`Option`/error),
  mirroring the runtime error of `torch.bernoulli`.
* Python `tensor *= s` in `rescale_sum` mutates the caller's tensor
  in place.  Each embedded operation therefore returns a `CallResult`
  carrying both the final contents of the caller's tensor argument
  (`tensorAfter`) and the returned tensor (`ret`).
* Randomness (`torch.bernoulli`) is modelled by an oracle of uniform
  draws `u`; an entry with keep-probability `p` is kept iff `u ... < p`.
* Python `assert` / `raise` are modelled by `Except SErr`.
-/

namespace Mergekit

/-- Python `int()` applied to a rational: truncation toward zero. -/
def pyInt (q : ℚ) : Int := if 0 ≤ q then ⌊q⌋ else ⌈q⌉

/-- The float literal `1e-8` used as threshold in `rescale_sum`. -/
def eps8 : ℚ := 1 / 100000000

/-- Embeds `tensor.abs().sum()`. -/
def absSum (l : List ℚ) : ℚ := (l.map abs).sum

/-- Elementwise product of two same-shape tensors (`tensor * mask`). -/
def tmul (a b : List ℚ) : List ℚ := List.zipWith (fun x y => x * y) a b

/-- Number of entries equal to 1 (used for mask cardinalities). -/
def countOnes (l : List ℚ) : ℕ := l.countP (fun x => decide (x = 1))

/-- Number of non-zero entries of a tensor. -/
def countNonzero (l : List ℚ) : ℕ := l.countP (fun x => decide (x ≠ 0))

/-- Embeds `mask = torch.zeros_like(tensor); mask.view(-1)[idxs] = 1`: ones at the
listed positions, zeros elsewhere. -/
def scatterOnes (n : ℕ) (idxs : List ℕ) : List ℚ :=
  (List.range n).map (fun i => if i ∈ idxs then (1 : ℚ) else 0)

/-- Normalisation of one endpoint of a Python slice `a[start:stop]` for a
sequence of length `n`: negative indices count from the end, and the result
is clamped into `[0, n]`. -/
def pySliceIdx (n : ℕ) (i : Int) : ℕ :=
  if i < 0 then ((n : Int) + i).toNat else min i.toNat n

/-- Python slice `l[start:stop]` (step 1). -/
def pySlice {α : Type} (l : List α) (start stop : Int) : List α :=
  let a := pySliceIdx l.length start
  let b := pySliceIdx l.length stop
  (l.drop a).take (b - a)

/-- Ascending comparison on indices keyed by the values of `w`, ties broken
by index: the deterministic total order modelling `torch.sort(w)`. -/
def keyAsc (w : List ℚ) (i j : ℕ) : Prop :=
  w.getD i 0 < w.getD j 0 ∨ (w.getD i 0 = w.getD j 0 ∧ i ≤ j)

/-- Descending comparison on indices keyed by the values of `w`, ties broken
by index: models `torch.argsort(w, descending=True)`. -/
def keyDesc (w : List ℚ) (i j : ℕ) : Prop :=
  w.getD j 0 < w.getD i 0 ∨ (w.getD i 0 = w.getD j 0 ∧ i ≤ j)

instance (w : List ℚ) : DecidableRel (keyAsc w) := fun i j => by
  unfold keyAsc; infer_instance

instance (w : List ℚ) : DecidableRel (keyDesc w) := fun i j => by
  unfold keyDesc; infer_instance

instance (w : List ℚ) : IsTotal ℕ (keyAsc w) where
  total i j := by
    unfold keyAsc
    rcases lt_trichotomy (w.getD i 0) (w.getD j 0) with h | h | h
    · exact Or.inl (Or.inl h)
    · rcases Nat.le_total i j with hij | hij
      · exact Or.inl (Or.inr ⟨h, hij⟩)
      · exact Or.inr (Or.inr ⟨h.symm, hij⟩)
    · exact Or.inr (Or.inl h)

instance (w : List ℚ) : IsTrans ℕ (keyAsc w) where
  trans i j k hij hjk := by
    unfold keyAsc at *
    rcases hij with h₁ | ⟨e₁, l₁⟩
    · rcases hjk with h₂ | ⟨e₂, _⟩
      · exact Or.inl (h₁.trans h₂)
      · exact Or.inl (e₂ ▸ h₁)
    · rcases hjk with h₂ | ⟨e₂, l₂⟩
      · exact Or.inl (e₁ ▸ h₂)
      · exact Or.inr ⟨e₁.trans e₂, l₁.trans l₂⟩

instance (w : List ℚ) : IsTotal ℕ (keyDesc w) where
  total i j := by
    unfold keyDesc
    rcases lt_trichotomy (w.getD i 0) (w.getD j 0) with h | h | h
    · exact Or.inr (Or.inl h)
    · rcases Nat.le_total i j with hij | hij
      · exact Or.inl (Or.inr ⟨h, hij⟩)
      · exact Or.inr (Or.inr ⟨h.symm, hij⟩)
    · exact Or.inl (Or.inl h)

instance (w : List ℚ) : IsTrans ℕ (keyDesc w) where
  trans i j k hij hjk := by
    unfold keyDesc at *
    rcases hij with h₁ | ⟨e₁, l₁⟩
    · rcases hjk with h₂ | ⟨e₂, _⟩
      · exact Or.inl (h₂.trans h₁)
      · exact Or.inl (e₂ ▸ h₁)
    · rcases hjk with h₂ | ⟨e₂, l₂⟩
      · exact Or.inl (e₁ ▸ h₂)
      · exact Or.inr ⟨e₁.trans e₂, l₁.trans l₂⟩

/-- Embeds `torch.sort(w, descending=False).indices`: the positions `0..n-1`
ordered by ascending value of `w` (ties by position). -/
def argsortAsc (w : List ℚ) : List ℕ :=
  List.insertionSort (keyAsc w) (List.range w.length)

/-- Embeds `torch.argsort(w, descending=True)`: the positions `0..n-1` ordered by
descending value of `w` (ties by position). -/
def argsortDesc (w : List ℚ) : List ℕ :=
  List.insertionSort (keyDesc w) (List.range w.length)

/-- Result of one call on a tensor argument: the final contents of the
caller's tensor (Python tensors are mutable and `rescale_sum` scales its
argument in place) together with the returned tensor. -/
structure CallResult where
  tensorAfter : List ℚ
  ret : List ℚ
deriving DecidableEq, Repr

/-- The `SparsificationMethod` enum. -/
inductive SparsificationMethod where
  | magnitude
  | random
  | magnitude_outliers
  | rank_magnitude_sampling
  | consensus_ta
  | consensus_ties
deriving DecidableEq, Repr

/-- Errors raised by the source: the `assert k > 0` in `magnitude`, the
`ValueError` of `rank_magnitude` (whose message reports `density + epsilon`
and `density - epsilon`, carried here as payload), the `RuntimeError` of
`torch.bernoulli` on a probability outside `[0, 1]` (including the NaN
produced by a zero rank range), and the `NotImplementedError` of the
dispatcher. -/
inductive SErr where
  | assertKPos : SErr
  | invalidBand : ℚ → ℚ → SErr
  | bernoulliBadProb : SErr
  | notImplemented : SparsificationMethod → SErr
deriving DecidableEq, Repr

/-- Embeds `rescale_sum(tensor, mask)`: rescales the values to match the original
tensor sum.  `tensor *= org_sum / new_sum` mutates the caller's tensor in
place whenever both absolute sums reach `1e-8`. -/
def rescale_sum (tensor mask : List ℚ) : CallResult :=
  let org_sum := absSum tensor
  let new_sum := absSum (tmul tensor mask)
  let tensor1 :=
    if eps8 ≤ org_sum ∧ eps8 ≤ new_sum then
      tensor.map (fun x => x * (org_sum / new_sum))
    else tensor
  ⟨tensor1, tmul tensor1 mask⟩

/-- The top-k mask built by `magnitude`: ones at the `k` positions of
largest absolute value (`k = int(density * numel)`). -/
def magnitude_mask (tensor : List ℚ) (density : ℚ) : List ℚ :=
  let k := (pyInt (density * (tensor.length : ℚ))).toNat
  let w := tensor.map abs
  scatterOnes tensor.length ((argsortDesc w).take k)

/-- Embeds `magnitude(tensor, density, rescale)`: masks out the smallest values,
retaining a proportion of `density`. -/
def magnitude (tensor : List ℚ) (density : ℚ) (rescale : Bool) :
    Except SErr CallResult :=
  if 1 ≤ density then .ok ⟨tensor, tensor⟩
  else if pyInt (density * (tensor.length : ℚ)) ≤ 0 then .error .assertKPos
  else
    let mask := magnitude_mask tensor density
    .ok (if rescale then rescale_sum tensor mask else ⟨tensor, tmul tensor mask⟩)

/-- Embeds `target_n = int(density * num_elems)` in `magnitude_outliers`. -/
def mo_target_n (tensor : List ℚ) (density : ℚ) : Int :=
  pyInt (density * (tensor.length : ℚ))

/-- Embeds `n_top = int(gamma * num_elems)` before the clamp. -/
def mo_n_top0 (tensor : List ℚ) (gamma : ℚ) : Int :=
  pyInt (gamma * (tensor.length : ℚ))

/-- Embeds `n_bot = num_elems - target_n - n_top` before the clamp. -/
def mo_n_bot0 (tensor : List ℚ) (density gamma : ℚ) : Int :=
  (tensor.length : Int) - mo_target_n tensor density - mo_n_top0 tensor gamma

/-- Value of `n_top` after the `n_bot < 0` adjustment. -/
def mo_n_top (tensor : List ℚ) (density gamma : ℚ) : Int :=
  if mo_n_bot0 tensor density gamma < 0 then
    mo_n_top0 tensor gamma + mo_n_bot0 tensor density gamma
  else mo_n_top0 tensor gamma

/-- Value of `n_bot` after the `n_bot < 0` adjustment. -/
def mo_n_bot (tensor : List ℚ) (density gamma : ℚ) : Int :=
  if mo_n_bot0 tensor density gamma < 0 then 0 else mo_n_bot0 tensor density gamma

/-- The mask built by `magnitude_outliers`:
`mask.view(-1)[indices[n_bot:-n_top]] = 1` over the ascending
absolute-value order. -/
def magnitude_outliers_mask (tensor : List ℚ) (density gamma : ℚ) : List ℚ :=
  let indices := argsortAsc (tensor.map abs)
  scatterOnes tensor.length
    (pySlice indices (mo_n_bot tensor density gamma) (-(mo_n_top tensor density gamma)))

/-- Embeds `magnitude_outliers(tensor, density, rescale, gamma)`: masks out the
smallest values in addition to large outliers. -/
def magnitude_outliers (tensor : List ℚ) (density : ℚ) (rescale : Bool)
    (gamma : ℚ) : CallResult :=
  if 1 ≤ density then ⟨tensor, tensor⟩
  else
    let mask := magnitude_outliers_mask tensor density gamma
    if rescale then rescale_sum tensor mask else ⟨tensor, tmul tensor mask⟩

/-- Embeds `bernoulli(tensor, density, rescale)` with a uniform-draw oracle `u`:
entry `j` is kept iff `u j < density`.  `torch.bernoulli` rejects a fill
probability outside `[0, 1]`; `density ≥ 1` never reaches it. -/
def bernoulli (tensor : List ℚ) (density : ℚ) (rescale : Bool)
    (u : ℕ → ℚ) : Except SErr CallResult :=
  if 1 ≤ density then .ok ⟨tensor, tensor⟩
  else if density < 0 then .error .bernoulliBadProb
  else
    let mask := (List.range tensor.length).map
      (fun j => if u j < density then (1 : ℚ) else 0)
    let res := tmul tensor mask
    .ok ⟨tensor, if rescale then res.map (fun x => x / density) else res⟩

/-- Rank-1 or rank-2 tensor, for the row-wise `rank_magnitude`. -/
inductive Tensor2 where
  | vec : List ℚ → Tensor2
  | mat : List (List ℚ) → Tensor2
deriving DecidableEq, Repr

/-- The shape of a `Tensor2` (`tensor.shape`). -/
def Tensor2.shape : Tensor2 → List ℕ
  | .vec v => [v.length]
  | .mat m => [m.length, (m.headD []).length]

/-- The row list after `if len(tensor.shape) < 2: tensor = tensor.unsqueeze(0)`. -/
def Tensor2.rows : Tensor2 → List (List ℚ)
  | .vec v => [v]
  | .mat m => m

/-- Per-row rank assignment of `rank_magnitude`:
`ranking_tensor[i][sorted_indices[i]] = arange(1, n+1)`, i.e. position `p`
receives `1 +` its place in the ascending absolute-value order. -/
def rowRanks (row : List ℚ) : List ℚ :=
  let sorted_indices := argsortAsc (row.map abs)
  (List.range row.length).map (fun p => ((sorted_indices.indexOf p : ℕ) + 1 : ℚ))

/-- Embeds `ranking_tensor.min(dim=1)` for one row (0 on an empty row, where the
source raises instead). -/
def rankMin (row : List ℚ) : ℚ :=
  match rowRanks row with
  | [] => 0
  | r :: rs => rs.foldl min r

/-- Embeds `ranking_tensor.max(dim=1)` for one row. -/
def rankMax (row : List ℚ) : ℚ :=
  match rowRanks row with
  | [] => 0
  | r :: rs => rs.foldl max r

/-- Per-row keep-probabilities
`(density - epsilon) + (rank - min) / (max - min) * (2 * epsilon)`.
A row with an empty dimension makes `torch.max` raise, and a zero rank
range makes the normalisation divide `0/0` (an IEEE NaN, which
`torch.bernoulli` then rejects); both are modelled as `none`. -/
def rowProbs (density epsilon : ℚ) (row : List ℚ) : Option (List ℚ) :=
  if row.length = 0 then none
  else
    let range_vals := rankMax row - rankMin row
    if range_vals = 0 then none
    else some ((rowRanks row).map
      (fun t => (density - epsilon) + ((t - rankMin row) / range_vals) * (2 * epsilon)))

/-- Applies `rowProbs` to every row, failing if any row fails. -/
def allRowProbs (density epsilon : ℚ) : List (List ℚ) → Option (List (List ℚ))
  | [] => some []
  | r :: rs =>
    match rowProbs density epsilon r, allRowProbs density epsilon rs with
    | some pr, some prs => some (pr :: prs)
    | _, _ => none

/-- Embeds `mask = torch.bernoulli(final_probabilities)` row by row, with the
uniform-draw oracle `u row col`. -/
def rmMaskRows (u : ℕ → ℕ → ℚ) (probRows : List (List ℚ)) : List (List ℚ) :=
  probRows.mapIdx (fun i pr => pr.mapIdx (fun j p => if u i j < p then (1 : ℚ) else 0))

/-- Embeds `res = tensor * mask`, then `res = res / final_probabilities` when
rescaling. -/
def rmResRows (rescale : Bool) (u : ℕ → ℕ → ℚ)
    (rows probRows : List (List ℚ)) : List (List ℚ) :=
  let resRows0 := List.zipWith tmul rows (rmMaskRows u probRows)
  if rescale then List.zipWith (List.zipWith (fun x y => x / y)) resRows0 probRows
  else resRows0

/-- Embeds `res.squeeze(0)`: dimension 0 is removed exactly when its size is 1. -/
def rmSqueeze (rs : List (List ℚ)) : Tensor2 :=
  match rs with
  | [r] => .vec r
  | rs => .mat rs

/-- Embeds `rank_magnitude(tensor, density, rescale, epsilon)` with a per-entry
uniform-draw oracle `u row col`.  Mirrors the source: identity for
`density ≥ 1`; `ValueError` unless `epsilon < density < 1 - epsilon`;
row-wise rank probabilities; Bernoulli mask (`torch.bernoulli` rejects any
probability outside `[0,1]`); optional per-entry rescale by the
probability; final unconditional `res.squeeze(0)`. -/
def rank_magnitude (t : Tensor2) (density : ℚ) (rescale : Bool)
    (epsilon : ℚ) (u : ℕ → ℕ → ℚ) : Except SErr Tensor2 :=
  if 1 ≤ density then .ok t
  else if density ≤ epsilon ∨ 1 - epsilon ≤ density then
    .error (.invalidBand (density + epsilon) (density - epsilon))
  else
    let rows := t.rows
    match allRowProbs density epsilon rows with
    | none => .error .bernoulliBadProb
    | some probRows =>
      if probRows.all (fun pr => pr.all (fun p => decide (0 ≤ p) && decide (p ≤ 1))) then
        .ok (rmSqueeze (rmResRows rescale u rows probRows))
      else .error .bernoulliBadProb

/-- Flattened contents of a `Tensor2`. -/
def Tensor2.toFlat : Tensor2 → List ℚ
  | .vec v => v
  | .mat m => m.flatten

/-- The dispatcher `sparsify(tensor, density, method, gamma, rescale,
epsilon)`, modelled on rank-1 tensors (each strategy works on the
flattened view).  `u` is the uniform-draw oracle for the stochastic
strategies. -/
def sparsify (tensor : List ℚ) (density : ℚ) (method : SparsificationMethod)
    (gamma : ℚ) (rescale : Bool) (epsilon : ℚ) (u : ℕ → ℕ → ℚ) :
    Except SErr CallResult :=
  if method = .magnitude ∨ method = .consensus_ties then
    magnitude tensor density rescale
  else if method = .random then
    bernoulli tensor density rescale (u 0)
  else if method = .magnitude_outliers then
    .ok (magnitude_outliers tensor density rescale gamma)
  else if method = .rank_magnitude_sampling then
    match rank_magnitude (.vec tensor) density rescale epsilon u with
    | .ok t2 => .ok ⟨tensor, t2.toFlat⟩
    | .error e => .error e
  else .error (.notImplemented method)

/-- Embeds `get_tall_mask(delta, lambda_factor, mixed_delta)`:
`delta.abs() > lambda_factor * (mixed_delta - delta).abs()`. -/
def get_tall_mask (delta : List ℚ) (lambda_factor : ℚ)
    (mixed_delta : List ℚ) : List Bool :=
  List.zipWith (fun d md => decide (|d| > lambda_factor * |md - d|)) delta mixed_delta

/-! ### Basic facts about the embedded operations -/

lemma length_tmul (a b : List ℚ) : (tmul a b).length = min a.length b.length := by
  simp [tmul]

lemma length_scatterOnes (n : ℕ) (idxs : List ℕ) : (scatterOnes n idxs).length = n := by
  simp [scatterOnes]

lemma argsortAsc_perm (w : List ℚ) : (argsortAsc w).Perm (List.range w.length) :=
  List.perm_insertionSort _ _

lemma argsortDesc_perm (w : List ℚ) : (argsortDesc w).Perm (List.range w.length) :=
  List.perm_insertionSort _ _

lemma argsortAsc_nodup (w : List ℚ) : (argsortAsc w).Nodup :=
  (argsortAsc_perm w).nodup_iff.mpr (List.nodup_range _)

lemma argsortDesc_nodup (w : List ℚ) : (argsortDesc w).Nodup :=
  (argsortDesc_perm w).nodup_iff.mpr (List.nodup_range _)

lemma argsortAsc_length (w : List ℚ) : (argsortAsc w).length = w.length := by
  simpa using (argsortAsc_perm w).length_eq

lemma argsortDesc_length (w : List ℚ) : (argsortDesc w).length = w.length := by
  simpa using (argsortDesc_perm w).length_eq

lemma mem_argsortAsc {w : List ℚ} {i : ℕ} : i ∈ argsortAsc w ↔ i < w.length := by
  rw [(argsortAsc_perm w).mem_iff, List.mem_range]

lemma mem_argsortDesc {w : List ℚ} {i : ℕ} : i ∈ argsortDesc w ↔ i < w.length := by
  rw [(argsortDesc_perm w).mem_iff, List.mem_range]

lemma argsortDesc_sorted (w : List ℚ) : List.Sorted (keyDesc w) (argsortDesc w) :=
  List.sorted_insertionSort _ _

lemma scatterOnes_getD {n : ℕ} (idxs : List ℕ) {i : ℕ} (h : i < n) :
    (scatterOnes n idxs).getD i 0 = if i ∈ idxs then 1 else 0 := by
  rw [scatterOnes, List.getD_eq_getElem?_getD, List.getElem?_map, List.getElem?_range h]
  rfl

lemma scatterOnes_mem {n : ℕ} {idxs : List ℕ} {x : ℚ} (hx : x ∈ scatterOnes n idxs) :
    x = 0 ∨ x = 1 := by
  simp only [scatterOnes, List.mem_map] at hx
  obtain ⟨i, -, hi⟩ := hx
  by_cases h : i ∈ idxs
  · right; rw [← hi, if_pos h]
  · left; rw [← hi, if_neg h]

lemma countOnes_scatterOnes {n : ℕ} {idxs : List ℕ} (hnd : idxs.Nodup)
    (hlt : ∀ i ∈ idxs, i < n) : countOnes (scatterOnes n idxs) = idxs.length := by
  classical
  unfold countOnes scatterOnes
  rw [List.countP_map]
  have hcongr :
      List.countP ((fun x => decide (x = 1)) ∘ fun i => if i ∈ idxs then (1 : ℚ) else 0)
          (List.range n)
        = List.countP (fun i => decide (i ∈ idxs)) (List.range n) := by
    apply List.countP_congr
    intro i _
    by_cases h : i ∈ idxs <;> simp [h]
  rw [hcongr, List.countP_eq_length_filter]
  have hperm : ((List.range n).filter (fun i => decide (i ∈ idxs))).Perm idxs := by
    rw [List.perm_ext_iff_of_nodup ((List.nodup_range _).filter _) hnd]
    intro a
    simp only [List.mem_filter, List.mem_range, decide_eq_true_eq]
    exact ⟨fun h => h.2, fun h => ⟨hlt a h, h⟩⟩
  exact hperm.length_eq

lemma tmul_map_left (t m : List ℚ) (c : ℚ) :
    tmul (t.map (fun x => x * c)) m = (tmul t m).map (fun x => x * c) := by
  unfold tmul
  rw [List.zipWith_map_left, List.map_zipWith]
  congr 1
  funext a b
  ring

lemma absSum_map_mul (l : List ℚ) (c : ℚ) :
    absSum (l.map (fun x => x * c)) = absSum l * |c| := by
  induction l with
  | nil => simp [absSum]
  | cons a l ih =>
    simp only [absSum, List.map_cons, List.sum_cons] at *
    rw [abs_mul, ih]
    ring

/-! ### Claim C9 -/

/-- Claim C9: `get_tall_mask` returns a boolean tensor of the same shape
whose entry at each position is true iff
`|delta| > lambda_factor * |mixed_delta - delta|` at that position. -/
theorem get_tall_mask_spec (delta : List ℚ) (lambda_factor : ℚ)
    (mixed_delta : List ℚ) (hlen : mixed_delta.length = delta.length) :
    (get_tall_mask delta lambda_factor mixed_delta).length = delta.length ∧
    ∀ i : ℕ, i < delta.length →
      ((get_tall_mask delta lambda_factor mixed_delta).getD i false = true ↔
        |delta.getD i 0| > lambda_factor * |mixed_delta.getD i 0 - delta.getD i 0|) := by
  have hl : (get_tall_mask delta lambda_factor mixed_delta).length = delta.length := by
    simp [get_tall_mask, hlen]
  refine ⟨hl, ?_⟩
  intro i hi
  have hi1 : i < (get_tall_mask delta lambda_factor mixed_delta).length := by omega
  have hi2 : i < mixed_delta.length := by omega
  rw [List.getD_eq_getElem _ _ hi1, List.getD_eq_getElem _ _ hi, List.getD_eq_getElem _ _ hi2]
  simp only [get_tall_mask] at hi1 ⊢
  rw [List.getElem_zipWith, decide_eq_true_eq]

/-- Witness for C9, at the spec's concrete example
`delta=[2,-1], lambda_factor=1.0, mixed_delta=[3,-1]`. -/
theorem get_tall_mask_spec_witness :
    get_tall_mask [2, -1] 1 [3, -1] = [true, true] ∧
    (get_tall_mask [2, -1] 1 [3, -1]).length = 2 := by
  refine ⟨by with_unfolding_all decide, ?_⟩
  exact (get_tall_mask_spec [2, -1] 1 [3, -1] (by decide)).1

/-! ### Claim C8 -/

lemma rescale_sum_ret_pos {tensor mask : List ℚ}
    (h : eps8 ≤ absSum tensor ∧ eps8 ≤ absSum (tmul tensor mask)) :
    (rescale_sum tensor mask).ret =
      (tmul tensor mask).map
        (fun x => x * (absSum tensor / absSum (tmul tensor mask))) := by
  unfold rescale_sum
  dsimp only
  rw [if_pos h, tmul_map_left]

lemma rescale_sum_ret_neg {tensor mask : List ℚ}
    (h : ¬(eps8 ≤ absSum tensor ∧ eps8 ≤ absSum (tmul tensor mask))) :
    (rescale_sum tensor mask).ret = tmul tensor mask := by
  unfold rescale_sum
  dsimp only
  rw [if_neg h]

/-- Claim C8: when both `sum(|tensor|)` and `sum(|tensor * mask|)` exceed
`1e-8`, `rescale_sum` returns `tensor * mask` scaled by their ratio, so the
absolute-value sum of the output equals the original's; when either sum is
below the threshold the output is `tensor * mask` unscaled; in both cases
the output's zero-pattern equals that of `tensor * mask`. -/
theorem rescale_sum_spec (tensor mask : List ℚ)
    (hmask : ∀ x ∈ mask, x = 0 ∨ x = 1) (hlen : mask.length = tensor.length) :
    (eps8 < absSum tensor ∧ eps8 < absSum (tmul tensor mask) →
      absSum (rescale_sum tensor mask).ret = absSum tensor) ∧
    (absSum tensor < eps8 ∨ absSum (tmul tensor mask) < eps8 →
      (rescale_sum tensor mask).ret = tmul tensor mask) ∧
    (∀ i : ℕ,
      ((rescale_sum tensor mask).ret.getD i 1 = 0 ↔ (tmul tensor mask).getD i 1 = 0)) := by
  have heps : (0 : ℚ) < eps8 := by norm_num [eps8]
  refine ⟨?_, ?_, ?_⟩
  · rintro ⟨h1, h2⟩
    have hg : eps8 ≤ absSum tensor ∧ eps8 ≤ absSum (tmul tensor mask) :=
      ⟨le_of_lt h1, le_of_lt h2⟩
    have hnew : absSum (tmul tensor mask) ≠ 0 := ne_of_gt (lt_trans heps h2)
    have hr : 0 ≤ absSum tensor / absSum (tmul tensor mask) := by
      apply div_nonneg (le_of_lt (lt_trans heps h1)) (le_of_lt (lt_trans heps h2))
    rw [rescale_sum_ret_pos hg, absSum_map_mul, abs_of_nonneg hr, mul_comm,
      div_mul_cancel₀ _ hnew]
  · intro h
    apply rescale_sum_ret_neg
    rcases h with h | h
    · exact fun hg => absurd hg.1 (not_le.mpr h)
    · exact fun hg => absurd hg.2 (not_le.mpr h)
  · intro i
    by_cases hg : eps8 ≤ absSum tensor ∧ eps8 ≤ absSum (tmul tensor mask)
    · have hrne : absSum tensor / absSum (tmul tensor mask) ≠ 0 := by
        have h1 : (0 : ℚ) < absSum tensor := lt_of_lt_of_le heps hg.1
        have h2 : (0 : ℚ) < absSum (tmul tensor mask) := lt_of_lt_of_le heps hg.2
        positivity
      rw [rescale_sum_ret_pos hg]
      by_cases hi : i < (tmul tensor mask).length
      · have hi2 : i < ((tmul tensor mask).map
            (fun x => x * (absSum tensor / absSum (tmul tensor mask)))).length := by
          simpa using hi
        rw [List.getD_eq_getElem _ _ hi2, List.getD_eq_getElem _ _ hi, List.getElem_map]
        constructor
        · intro h
          rcases mul_eq_zero.mp h with h | h
          · exact h
          · exact absurd h hrne
        · intro h
          rw [h, zero_mul]
      · rw [List.getD_eq_default _ _ (by simpa using not_lt.mp hi),
          List.getD_eq_default _ _ (not_lt.mp hi)]
    · rw [rescale_sum_ret_neg hg]

/-- Witness for C8: `tensor=[1,2]`, `mask=[0,1]`: both sums exceed `1e-8`
and the rescaled output's absolute sum equals the original's. -/
theorem rescale_sum_spec_witness :
    absSum (rescale_sum [1, 2] [0, 1]).ret = absSum [1, 2] :=
  (rescale_sum_spec [1, 2] [0, 1] (by with_unfolding_all decide) (by decide)).1
    (by with_unfolding_all decide)

/-! ### Claim C6 -/

/-- Claim C6: for density in (0,1) with `k = int(density * numel) = 0`,
`magnitude` fails with the degenerate-density assertion instead of
returning a result. -/
theorem magnitude_degenerate (tensor : List ℚ) (density : ℚ) (rescale : Bool)
    (h0 : 0 < density) (h1 : density < 1)
    (hk : pyInt (density * (tensor.length : ℚ)) = 0) :
    magnitude tensor density rescale = .error .assertKPos := by
  unfold magnitude
  rw [if_neg (not_le.mpr h1), if_pos (le_of_eq hk)]

/-- Witness for C6: a 4-element tensor with density 1/10 gives `k = 0`. -/
theorem magnitude_degenerate_witness :
    magnitude [1, 2, 3, 4] (1/10) false = .error .assertKPos :=
  magnitude_degenerate [1, 2, 3, 4] (1/10) false (by norm_num) (by norm_num)
    (by with_unfolding_all decide)

/-! ### Claim C2 -/

/-- Claim C2 (code bug): the dispatcher routes `consensus_ties` to
`magnitude`, but `consensus_ta` is matched by no branch and always falls
into the `NotImplementedError` raise, contrary to the spec's alias
invariant that routes it to the Bernoulli masking of `random`. -/
theorem sparsify_consensus_dispatch :
    (∀ (tensor : List ℚ) (density gamma : ℚ) (rescale : Bool) (epsilon : ℚ)
        (u : ℕ → ℕ → ℚ),
      sparsify tensor density .consensus_ties gamma rescale epsilon u =
        magnitude tensor density rescale) ∧
    (∀ (tensor : List ℚ) (density gamma : ℚ) (rescale : Bool) (epsilon : ℚ)
        (u : ℕ → ℕ → ℚ),
      sparsify tensor density .consensus_ta gamma rescale epsilon u =
        .error (.notImplemented .consensus_ta)) := by
  constructor <;> intro tensor density gamma rescale epsilon u <;> rfl

/-! ### Claim C7 -/

/-- Claim C7: for `density < 1`, `rank_magnitude` raises the
invalid-band `ValueError` (reporting both `density + epsilon` and
`density - epsilon`) exactly when `epsilon < density < 1 - epsilon`
fails. -/
theorem rank_magnitude_band_error (t : Tensor2) (density : ℚ) (rescale : Bool)
    (epsilon : ℚ) (u : ℕ → ℕ → ℚ) (hd : density < 1) :
    rank_magnitude t density rescale epsilon u =
        .error (.invalidBand (density + epsilon) (density - epsilon)) ↔
      (density ≤ epsilon ∨ 1 - epsilon ≤ density) := by
  unfold rank_magnitude
  rw [if_neg (not_le.mpr hd)]
  by_cases hband : density ≤ epsilon ∨ 1 - epsilon ≤ density
  · rw [if_pos hband]
    exact iff_of_true rfl hband
  · rw [if_neg hband]
    simp only [hband, iff_false]
    cases hrows : allRowProbs density epsilon t.rows with
    | none => simp
    | some probRows =>
      by_cases hall : probRows.all
          (fun pr => pr.all fun p => decide (0 ≤ p) && decide (p ≤ 1)) = true
      · simp [hall]
      · simp [hall]

/-- A fixed all-zero uniform-draw oracle, used by concrete witnesses. -/
def uZero : ℕ → ℕ → ℚ := fun _ _ => 0

/-- Witness for C7 at the spec's concrete instance
`density = 0.5, epsilon = 0.6` (the band check fails). -/
theorem rank_magnitude_band_error_witness :
    rank_magnitude (.vec [1, 2]) (1/2) true (3/5) uZero =
      .error (.invalidBand (1/2 + 3/5) (1/2 - 3/5)) :=
  (rank_magnitude_band_error (.vec [1, 2]) (1/2) true (3/5) uZero
    (by norm_num)).mpr (by norm_num)

/-! ### Claim C10 -/

lemma rowRanks_singleton (x : ℚ) : rowRanks [x] = [1] := by
  with_unfolding_all rfl

lemma rankRange_singleton (x : ℚ) : rankMax [x] - rankMin [x] = 0 := by
  simp [rankMax, rankMin, rowRanks_singleton]

lemma rowProbs_singleton (d ε x : ℚ) : rowProbs d ε [x] = none := by
  have h := rankRange_singleton x
  simp [rowProbs, h]

lemma allRowProbs_eq_none {d ε : ℚ} {rows : List (List ℚ)} {row : List ℚ}
    (hrow : row ∈ rows) (hnone : rowProbs d ε row = none) :
    allRowProbs d ε rows = none := by
  induction rows with
  | nil => cases hrow
  | cons r rs ih =>
    rcases List.mem_cons.mp hrow with rfl | hmem
    · simp [allRowProbs, hnone]
    · cases h : rowProbs d ε r <;> simp [allRowProbs, h, ih hmem]

/-- Claim C10: on an input whose rows all have a single element (a 1-D
single-element tensor or an N-by-1 matrix), the per-row rank range used as
divisor by the normalisation is 0, and `rank_magnitude` cannot produce a
mask: the 0/0 probabilities make the Bernoulli draw fail, so totality
needs every row to hold at least 2 elements. -/
theorem rank_magnitude_singleton_rows (t : Tensor2) (density : ℚ)
    (rescale : Bool) (epsilon : ℚ) (u : ℕ → ℕ → ℚ) (hd : density < 1)
    (hlo : epsilon < density) (hhi : density < 1 - epsilon)
    (hne : t.rows ≠ []) (h1 : ∀ row ∈ t.rows, row.length = 1) :
    (∀ row ∈ t.rows, rankMax row - rankMin row = 0) ∧
    rank_magnitude t density rescale epsilon u = .error .bernoulliBadProb := by
  have hzero : ∀ row ∈ t.rows, rankMax row - rankMin row = 0 := by
    intro row hrow
    obtain ⟨x, rfl⟩ := List.length_eq_one.mp (h1 row hrow)
    exact rankRange_singleton x
  refine ⟨hzero, ?_⟩
  have hnone : allRowProbs density epsilon t.rows = none := by
    cases hrows : t.rows with
    | nil => exact absurd hrows hne
    | cons r rs =>
      have hrmem : r ∈ t.rows := by rw [hrows]; exact List.mem_cons_self r rs
      obtain ⟨x, hx⟩ := List.length_eq_one.mp (h1 r hrmem)
      exact allRowProbs_eq_none (List.mem_cons_self r rs)
        (by rw [hx]; exact rowProbs_singleton density epsilon x)
  unfold rank_magnitude
  rw [if_neg (not_le.mpr hd), if_neg (by rintro (h | h) <;> linarith)]
  simp [hnone]

/-- Witness for C10: the single-element tensor `[5]` with a valid band. -/
theorem rank_magnitude_singleton_rows_witness :
    rank_magnitude (.vec [5]) (1/2) false (1/20) uZero =
      .error .bernoulliBadProb :=
  (rank_magnitude_singleton_rows (.vec [5]) (1/2) false (1/20) uZero
    (by norm_num) (by norm_num) (by norm_num) (by simp [Tensor2.rows])
    (by simp [Tensor2.rows])).2

/-! ### Claim C3 -/

lemma magnitude_after_norescale {tensor : List ℚ} {density : ℚ}
    {res : CallResult} (h : magnitude tensor density false = .ok res) :
    res.tensorAfter = tensor := by
  unfold magnitude at h
  split_ifs at h with h1 h2 h3 <;>
    first
      | exact h3.elim
      | (cases h <;> rfl)

lemma magnitude_outliers_after_norescale (tensor : List ℚ) (density gamma : ℚ) :
    (magnitude_outliers tensor density false gamma).tensorAfter = tensor := by
  unfold magnitude_outliers
  split_ifs with h1 h2 <;> first | rfl | exact h2.elim

lemma bernoulli_after {tensor : List ℚ} {density : ℚ} {rescale : Bool}
    {u : ℕ → ℚ} {res : CallResult}
    (h : bernoulli tensor density rescale u = .ok res) :
    res.tensorAfter = tensor := by
  unfold bernoulli at h
  split_ifs at h with h1 h2 h3 <;> (cases h <;> rfl)

/-- Claim C3 counterexample: `rescale_sum` mutates the caller's tensor in
place (`tensor *= org_sum / new_sum`): at `tensor=[1,2]`, `mask=[0,1]` the
tensor argument holds `[3/2, 3]` after the call. -/
theorem rescale_sum_mutates_counterexample :
    (rescale_sum [1, 2] [0, 1]).tensorAfter ≠ [1, 2] := by
  with_unfolding_all decide

/-- Claim C3 (amended): `rescale_sum` scales its tensor argument in place
by `sum(|tensor|)/sum(|tensor*mask|)` whenever both sums are at least
`1e-8` (and leaves it untouched otherwise), so `magnitude`,
`magnitude_outliers` and `sparsify` with `rescale=true` can mutate their
input; every operation invoked with `rescale=false` (and `bernoulli`
always) leaves the input tensor's element values unchanged. -/
theorem mutation_policy :
    (∀ tensor mask : List ℚ,
      (eps8 ≤ absSum tensor ∧ eps8 ≤ absSum (tmul tensor mask) →
        (rescale_sum tensor mask).tensorAfter =
          tensor.map (fun x => x * (absSum tensor / absSum (tmul tensor mask)))) ∧
      (¬(eps8 ≤ absSum tensor ∧ eps8 ≤ absSum (tmul tensor mask)) →
        (rescale_sum tensor mask).tensorAfter = tensor)) ∧
    (∀ (tensor : List ℚ) (density : ℚ) (res : CallResult),
      magnitude tensor density false = .ok res → res.tensorAfter = tensor) ∧
    (∀ (tensor : List ℚ) (density gamma : ℚ),
      (magnitude_outliers tensor density false gamma).tensorAfter = tensor) ∧
    (∀ (tensor : List ℚ) (density : ℚ) (rescale : Bool) (u : ℕ → ℚ)
        (res : CallResult),
      bernoulli tensor density rescale u = .ok res → res.tensorAfter = tensor) ∧
    (∀ (tensor : List ℚ) (density gamma epsilon : ℚ)
        (method : SparsificationMethod) (u : ℕ → ℕ → ℚ) (res : CallResult),
      sparsify tensor density method gamma false epsilon u = .ok res →
        res.tensorAfter = tensor) := by
  refine ⟨?_, fun t d res h => magnitude_after_norescale h,
    magnitude_outliers_after_norescale, fun t d r u res h => bernoulli_after h, ?_⟩
  · intro tensor mask
    constructor
    · intro hg
      unfold rescale_sum
      dsimp only
      rw [if_pos hg]
    · intro hg
      unfold rescale_sum
      dsimp only
      rw [if_neg hg]
  · intro tensor density gamma epsilon method u res h
    unfold sparsify at h
    split_ifs at h with hm1 hm2 hm3 hm4 <;>
      first
        | exact magnitude_after_norescale h
        | exact bernoulli_after h
        | (cases h <;> exact magnitude_outliers_after_norescale tensor density gamma)
        | (cases hr : rank_magnitude (.vec tensor) density false epsilon u <;>
            simp only [hr] at h <;> (cases h <;> rfl))
        | cases h

/-- Witness for C3 (amended), at a tensor whose absolute sum is below the
`1e-8` threshold: the input is left unchanged. -/
theorem mutation_policy_witness :
    (rescale_sum [0, 0] [1, 1]).tensorAfter = [0, 0] :=
  (mutation_policy.1 [0, 0] [1, 1]).2 (by with_unfolding_all decide)

/-! ### Claim C5 -/

lemma pyInt_of_nonneg {q : ℚ} (h : 0 ≤ q) : pyInt q = ⌊q⌋ := if_pos h

lemma getD_map_abs {t : List ℚ} {i : ℕ} (h : i < t.length) :
    (t.map abs).getD i 0 = |t.getD i 0| := by
  rw [List.getD_eq_getElem _ _ (by simpa using h), List.getD_eq_getElem _ _ h,
    List.getElem_map]

lemma countNonzero_tmul {t m : List ℚ} (hlen : m.length = t.length)
    (hm : ∀ x ∈ m, x = 0 ∨ x = 1) (ht : ∀ x ∈ t, x ≠ 0) :
    countNonzero (tmul t m) = countOnes m := by
  induction t generalizing m with
  | nil =>
    have : m = [] := List.length_eq_zero.mp hlen
    subst this
    rfl
  | cons a t ih =>
    cases m with
    | nil => simp at hlen
    | cons b m' =>
      have hlen' : m'.length = t.length := by simpa using hlen
      have hm' : ∀ x ∈ m', x = 0 ∨ x = 1 := fun x hx => hm x (List.mem_cons_of_mem _ hx)
      have ht' : ∀ x ∈ t, x ≠ 0 := fun x hx => ht x (List.mem_cons_of_mem _ hx)
      have hrec := ih hlen' hm' ht'
      unfold tmul countNonzero countOnes at *
      rcases hm b (List.mem_cons_self _ _) with rfl | rfl
      · simp only [List.zipWith_cons_cons, List.countP_cons, mul_zero]
        rw [hrec]
        norm_num
      · simp only [List.zipWith_cons_cons, List.countP_cons, mul_one]
        rw [hrec]
        have ha : a ≠ 0 := ht a (List.mem_cons_self _ _)
        simp [ha]

lemma countNonzero_map_mul {l : List ℚ} {c : ℚ} (hc : c ≠ 0) :
    countNonzero (l.map (fun x => x * c)) = countNonzero l := by
  unfold countNonzero
  rw [List.countP_map]
  apply List.countP_congr
  intro x _
  simp [mul_eq_zero, hc]

lemma magnitude_mask_eq (tensor : List ℚ) (density : ℚ) :
    magnitude_mask tensor density =
      scatterOnes tensor.length
        ((argsortDesc (tensor.map abs)).take
          (pyInt (density * (tensor.length : ℚ))).toNat) := rfl

/-- Claim C5 counterexample: on the tensor `[0, 0]` with density `1/2`
(`k = 1 > 0`), `magnitude` succeeds but its output has 0 non-zero
entries, not `k`: a zero entry kept by the mask stays zero. -/
theorem magnitude_zero_entries_counterexample :
    magnitude [0, 0] (1/2) false =
      .ok ⟨[0, 0], [0, 0]⟩ ∧
    pyInt ((1/2) * (([0, 0] : List ℚ).length : ℚ)) = 1 ∧
    countNonzero [0, 0] = 0 :=
  ⟨by with_unfolding_all rfl, by with_unfolding_all rfl, by with_unfolding_all rfl⟩

/-- Claim C5 (amended): for density in (0,1) with
`k = int(density * numel) > 0`, `magnitude` succeeds, its mask keeps
exactly `k` positions, every kept position's original absolute value is at
least every dropped position's, and when the tensor has no zero entries
the output has exactly `k` non-zero entries. -/
theorem magnitude_topk (tensor : List ℚ) (density : ℚ) (rescale : Bool)
    (h0 : 0 < density) (h1 : density < 1)
    (hk : 0 < pyInt (density * (tensor.length : ℚ))) :
    ∃ res : CallResult, magnitude tensor density rescale = .ok res ∧
      countOnes (magnitude_mask tensor density) =
        (pyInt (density * (tensor.length : ℚ))).toNat ∧
      (∀ i j : ℕ, i < tensor.length → j < tensor.length →
        (magnitude_mask tensor density).getD i 0 = 1 →
        (magnitude_mask tensor density).getD j 0 = 0 →
        |tensor.getD j 0| ≤ |tensor.getD i 0|) ∧
      ((∀ x ∈ tensor, x ≠ 0) →
        countNonzero res.ret = (pyInt (density * (tensor.length : ℚ))).toNat) := by
  have hN : 1 ≤ tensor.length := by
    rcases Nat.eq_zero_or_pos tensor.length with hz | hp
    · rw [hz] at hk
      simp [pyInt] at hk
    · exact hp
  have hq0 : (0 : ℚ) ≤ density * (tensor.length : ℚ) := by positivity
  have hfloor : pyInt (density * (tensor.length : ℚ)) =
      ⌊density * (tensor.length : ℚ)⌋ := pyInt_of_nonneg hq0
  have hkN : pyInt (density * (tensor.length : ℚ)) < (tensor.length : ℤ) := by
    rw [hfloor]
    apply Int.floor_lt.mpr
    push_cast
    have hlpos : (0 : ℚ) < (tensor.length : ℚ) := by
      exact_mod_cast Nat.lt_of_lt_of_le Nat.zero_lt_one hN
    nlinarith
  have hknN : (pyInt (density * (tensor.length : ℚ))).toNat ≤ tensor.length := by
    omega
  have hwlen : (tensor.map abs).length = tensor.length := List.length_map _ _
  have hmask_binary : ∀ x ∈ magnitude_mask tensor density, x = 0 ∨ x = 1 := by
    rw [magnitude_mask_eq]
    exact fun x hx => scatterOnes_mem hx
  have hmask_len : (magnitude_mask tensor density).length = tensor.length := by
    rw [magnitude_mask_eq]
    exact length_scatterOnes _ _
  have htopk_nodup : ((argsortDesc (tensor.map abs)).take
      (pyInt (density * (tensor.length : ℚ))).toNat).Nodup :=
    (List.take_sublist _ _).nodup (argsortDesc_nodup _)
  have htopk_lt : ∀ i ∈ (argsortDesc (tensor.map abs)).take
      (pyInt (density * (tensor.length : ℚ))).toNat, i < tensor.length := by
    intro i hi
    have := mem_argsortDesc.mp ((List.take_sublist _ _).mem hi)
    omega
  have hcount : countOnes (magnitude_mask tensor density) =
      (pyInt (density * (tensor.length : ℚ))).toNat := by
    rw [magnitude_mask_eq, countOnes_scatterOnes htopk_nodup htopk_lt,
      List.length_take, argsortDesc_length, hwlen]
    omega
  have horder : ∀ i j : ℕ, i < tensor.length → j < tensor.length →
      (magnitude_mask tensor density).getD i 0 = 1 →
      (magnitude_mask tensor density).getD j 0 = 0 →
      |tensor.getD j 0| ≤ |tensor.getD i 0| := by
    intro i j hi hj hmi hmj
    rw [magnitude_mask_eq, scatterOnes_getD _ hi] at hmi
    rw [magnitude_mask_eq, scatterOnes_getD _ hj] at hmj
    have himem : i ∈ (argsortDesc (tensor.map abs)).take
        (pyInt (density * (tensor.length : ℚ))).toNat := by
      by_contra hc
      rw [if_neg hc] at hmi
      norm_num at hmi
    have hjnot : j ∉ (argsortDesc (tensor.map abs)).take
        (pyInt (density * (tensor.length : ℚ))).toNat := by
      intro hc
      rw [if_pos hc] at hmj
      norm_num at hmj
    have hjmem : j ∈ (argsortDesc (tensor.map abs)).drop
        (pyInt (density * (tensor.length : ℚ))).toNat := by
      have hjall : j ∈ argsortDesc (tensor.map abs) := by
        rw [mem_argsortDesc, hwlen]
        exact hj
      rw [← List.take_append_drop (pyInt (density * (tensor.length : ℚ))).toNat
        (argsortDesc (tensor.map abs))] at hjall
      rcases List.mem_append.mp hjall with hc | hc
      · exact absurd hc hjnot
      · exact hc
    obtain ⟨pi, hpi_lt, hpi⟩ := List.mem_take_iff_getElem.mp himem
    obtain ⟨pj, hpj_lt, hpj⟩ := List.mem_drop_iff_getElem.mp hjmem
    have hkd : keyDesc (tensor.map abs)
        ((argsortDesc (tensor.map abs))[pi])
        ((argsortDesc (tensor.map abs))[(pyInt (density * (tensor.length : ℚ))).toNat + pj]) := by
      apply List.pairwise_iff_getElem.mp (argsortDesc_sorted (tensor.map abs))
      omega
    rw [hpi, hpj] at hkd
    have hgoal : (tensor.map abs).getD j 0 ≤ (tensor.map abs).getD i 0 := by
      rcases hkd with h | ⟨h, -⟩
      · exact le_of_lt h
      · exact le_of_eq h.symm
    rwa [getD_map_abs hi, getD_map_abs hj] at hgoal
  have hmag : magnitude tensor density rescale =
      .ok (if rescale then rescale_sum tensor (magnitude_mask tensor density)
           else ⟨tensor, tmul tensor (magnitude_mask tensor density)⟩) := by
    unfold magnitude
    rw [if_neg (not_le.mpr h1), if_neg (not_le.mpr hk)]
  refine ⟨_, hmag, hcount, horder, ?_⟩
  intro ht
  cases rescale with
  | false =>
    simp only [Bool.false_eq_true, if_false]
    rw [countNonzero_tmul hmask_len hmask_binary ht, hcount]
  | true =>
    simp only [if_true]
    by_cases hg : eps8 ≤ absSum tensor ∧
        eps8 ≤ absSum (tmul tensor (magnitude_mask tensor density))
    · rw [rescale_sum_ret_pos hg]
      have heps : (0 : ℚ) < eps8 := by norm_num [eps8]
      have hcne : absSum tensor / absSum (tmul tensor (magnitude_mask tensor density)) ≠ 0 := by
        have h1p : (0 : ℚ) < absSum tensor := lt_of_lt_of_le heps hg.1
        have h2p : (0 : ℚ) < absSum (tmul tensor (magnitude_mask tensor density)) :=
          lt_of_lt_of_le heps hg.2
        positivity
      rw [countNonzero_map_mul hcne,
        countNonzero_tmul hmask_len hmask_binary ht, hcount]
    · rw [rescale_sum_ret_neg hg,
        countNonzero_tmul hmask_len hmask_binary ht, hcount]

/-- Witness for C5 (amended) on `[3, -1, 2]` with density `2/3`:
`k = 2` entries are kept. -/
theorem magnitude_topk_witness :
    ∃ res : CallResult, magnitude [3, -1, 2] (2/3) false = .ok res ∧
      countOnes (magnitude_mask [3, -1, 2] (2/3)) =
        (pyInt ((2/3) * (([3, -1, 2] : List ℚ).length : ℚ))).toNat ∧
      (∀ i j : ℕ, i < ([3, -1, 2] : List ℚ).length → j < ([3, -1, 2] : List ℚ).length →
        (magnitude_mask [3, -1, 2] (2/3)).getD i 0 = 1 →
        (magnitude_mask [3, -1, 2] (2/3)).getD j 0 = 0 →
        |([3, -1, 2] : List ℚ).getD j 0| ≤ |([3, -1, 2] : List ℚ).getD i 0|) ∧
      ((∀ x ∈ ([3, -1, 2] : List ℚ), x ≠ 0) →
        countNonzero res.ret =
          (pyInt ((2/3) * (([3, -1, 2] : List ℚ).length : ℚ))).toNat) :=
  magnitude_topk [3, -1, 2] (2/3) false (by norm_num) (by norm_num)
    (by with_unfolding_all decide)

/-! ### Claim C1 -/

lemma mo_bounds (tensor : List ℚ) (density gamma : ℚ)
    (h0 : 0 < density) (h1 : density < 1) (hγ : 0 ≤ gamma)
    (htop : 1 ≤ mo_n_top0 tensor gamma) :
    1 ≤ tensor.length ∧ 0 ≤ mo_target_n tensor density ∧
    mo_target_n tensor density < (tensor.length : ℤ) ∧
    0 ≤ mo_n_bot tensor density gamma ∧ 1 ≤ mo_n_top tensor density gamma ∧
    mo_n_bot tensor density gamma + mo_n_top tensor density gamma +
      mo_target_n tensor density = (tensor.length : ℤ) := by
  have hN : 1 ≤ tensor.length := by
    rcases Nat.eq_zero_or_pos tensor.length with hz | hp
    · unfold mo_n_top0 at htop
      rw [hz] at htop
      simp [pyInt] at htop
    · exact hp
  have hq0 : (0 : ℚ) ≤ density * (tensor.length : ℚ) := by positivity
  have ht0 : 0 ≤ mo_target_n tensor density := by
    rw [mo_target_n, pyInt_of_nonneg hq0]
    exact Int.floor_nonneg.mpr hq0
  have htN : mo_target_n tensor density < (tensor.length : ℤ) := by
    rw [mo_target_n, pyInt_of_nonneg hq0]
    apply Int.floor_lt.mpr
    push_cast
    have hlpos : (0 : ℚ) < (tensor.length : ℚ) := by exact_mod_cast hN
    nlinarith
  refine ⟨hN, ht0, htN, ?_, ?_, ?_⟩ <;>
    · simp only [mo_n_bot, mo_n_top, mo_n_bot0]
      split_ifs with hb <;> omega

lemma pySlice_neg_stop {α : Type} (l : List α) (a c : Int)
    (h0 : 0 ≤ a) (hc : 1 ≤ c) (hcl : c ≤ (l.length : Int))
    (hal : a ≤ (l.length : Int)) :
    pySlice l a (-c) = (l.drop a.toNat).take (l.length - c.toNat - a.toNat) := by
  unfold pySlice pySliceIdx
  rw [if_neg (by omega), if_pos (by omega)]
  have h1 : min a.toNat l.length = a.toNat := by omega
  have h2 : ((l.length : Int) + -c).toNat = l.length - c.toNat := by omega
  rw [h1, h2]

lemma magnitude_outliers_mask_eq (tensor : List ℚ) (density gamma : ℚ) :
    magnitude_outliers_mask tensor density gamma =
      scatterOnes tensor.length
        (pySlice (argsortAsc (tensor.map abs)) (mo_n_bot tensor density gamma)
          (-(mo_n_top tensor density gamma))) := rfl

/-- Claim C1 counterexample: on `[1,2,3,4]` with density 1/2 and
`gamma = 0`, `target_n = 2` but the Python slice `indices[n_bot:-0]` is
empty, so the mask is all-zero: the output does not keep `target_n`
entries. -/
theorem magnitude_outliers_gamma_zero_counterexample :
    magnitude_outliers_mask [1, 2, 3, 4] (1/2) 0 = [0, 0, 0, 0] ∧
    (mo_target_n [1, 2, 3, 4] (1/2)).toNat = 2 :=
  ⟨by with_unfolding_all rfl, by with_unfolding_all rfl⟩

/-- Claim C1 (amended): for density in (0,1), `gamma ≥ 0` and
`n_top = int(gamma*N) ≥ 1` (the claim fails when `int(gamma*N) = 0`,
where the `-0` slice is empty), the `magnitude_outliers` mask keeps
exactly `target_n = int(density*N)` entries, namely the contiguous middle
band `[n_bot, N - n_top)` of the ascending-absolute-value order (with
`n_top` reduced by the deficit and `n_bot` clamped to 0 when
`n_bot = N - target_n - n_top` is negative), and the zeroed-low and
zeroed-high index sets are disjoint and together hold `n_bot + n_top`
entries. -/
theorem magnitude_outliers_band (tensor : List ℚ) (density gamma : ℚ)
    (h0 : 0 < density) (h1 : density < 1) (hγ : 0 ≤ gamma)
    (htop : 1 ≤ mo_n_top0 tensor gamma) :
    countOnes (magnitude_outliers_mask tensor density gamma)
        = (mo_target_n tensor density).toNat ∧
    pySlice (argsortAsc (tensor.map abs)) (mo_n_bot tensor density gamma)
        (-(mo_n_top tensor density gamma))
      = ((argsortAsc (tensor.map abs)).drop
            (mo_n_bot tensor density gamma).toNat).take
          (mo_target_n tensor density).toNat ∧
    (∀ p : ℕ, p < tensor.length →
      ((magnitude_outliers_mask tensor density gamma).getD p 0 = 1 ↔
        ∃ q : ℕ, (mo_n_bot tensor density gamma).toNat ≤ q ∧
          q < tensor.length - (mo_n_top tensor density gamma).toNat ∧
          (argsortAsc (tensor.map abs)).getD q 0 = p)) ∧
    List.Disjoint
      ((argsortAsc (tensor.map abs)).take (mo_n_bot tensor density gamma).toNat)
      ((argsortAsc (tensor.map abs)).drop
        (tensor.length - (mo_n_top tensor density gamma).toNat)) ∧
    ((argsortAsc (tensor.map abs)).take
        (mo_n_bot tensor density gamma).toNat).length
      + ((argsortAsc (tensor.map abs)).drop
          (tensor.length - (mo_n_top tensor density gamma).toNat)).length
      = (mo_n_bot tensor density gamma).toNat
        + (mo_n_top tensor density gamma).toNat := by
  obtain ⟨hN, ht0, htN, hb0, hp1, hsum⟩ := mo_bounds tensor density gamma h0 h1 hγ htop
  have hwlen : (tensor.map abs).length = tensor.length := List.length_map _ _
  have hidx_len : (argsortAsc (tensor.map abs)).length = tensor.length := by
    rw [argsortAsc_length, hwlen]
  have hslice : pySlice (argsortAsc (tensor.map abs)) (mo_n_bot tensor density gamma)
      (-(mo_n_top tensor density gamma))
      = ((argsortAsc (tensor.map abs)).drop
            (mo_n_bot tensor density gamma).toNat).take
          (mo_target_n tensor density).toNat := by
    rw [pySlice_neg_stop _ _ _ hb0 hp1 (by omega) (by omega)]
    congr 1
    omega
  have hkept_nodup : (((argsortAsc (tensor.map abs)).drop
      (mo_n_bot tensor density gamma).toNat).take
        (mo_target_n tensor density).toNat).Nodup :=
    ((List.take_sublist _ _).trans (List.drop_sublist _ _)).nodup (argsortAsc_nodup _)
  have hkept_lt : ∀ p ∈ ((argsortAsc (tensor.map abs)).drop
      (mo_n_bot tensor density gamma).toNat).take
        (mo_target_n tensor density).toNat, p < tensor.length := by
    intro p hp
    have hmem : p ∈ argsortAsc (tensor.map abs) :=
      (List.drop_sublist _ _).mem ((List.take_sublist _ _).mem hp)
    have := mem_argsortAsc.mp hmem
    omega
  have hkept_len : (((argsortAsc (tensor.map abs)).drop
      (mo_n_bot tensor density gamma).toNat).take
        (mo_target_n tensor density).toNat).length
      = (mo_target_n tensor density).toNat := by
    rw [List.length_take, List.length_drop, hidx_len]
    omega
  refine ⟨?_, hslice, ?_, ?_, ?_⟩
  · rw [magnitude_outliers_mask_eq, hslice,
      countOnes_scatterOnes hkept_nodup hkept_lt, hkept_len]
  · intro p hp
    rw [magnitude_outliers_mask_eq, hslice, scatterOnes_getD _ hp]
    constructor
    · intro hone
      have hmem : p ∈ ((argsortAsc (tensor.map abs)).drop
          (mo_n_bot tensor density gamma).toNat).take
            (mo_target_n tensor density).toNat := by
        by_contra hc
        rw [if_neg hc] at hone
        norm_num at hone
      obtain ⟨i, hi_lt, hi⟩ := List.mem_take_iff_getElem.mp hmem
      have hi_lt2 : i < ((argsortAsc (tensor.map abs)).drop
          (mo_n_bot tensor density gamma).toNat).length := by omega
      rw [List.getElem_drop] at hi
      refine ⟨(mo_n_bot tensor density gamma).toNat + i, by omega, ?_, ?_⟩
      · rw [List.length_drop, hidx_len] at hi_lt2
        omega
      · rw [List.getD_eq_getElem _ _ (by omega)]
        exact hi
    · rintro ⟨q, hq1, hq2, hq3⟩
      have hq_lt : q < (argsortAsc (tensor.map abs)).length := by omega
      rw [List.getD_eq_getElem _ _ hq_lt] at hq3
      have hmem : p ∈ ((argsortAsc (tensor.map abs)).drop
          (mo_n_bot tensor density gamma).toNat).take
            (mo_target_n tensor density).toNat := by
        apply List.mem_take_iff_getElem.mpr
        refine ⟨q - (mo_n_bot tensor density gamma).toNat, ?_, ?_⟩
        · rw [List.length_drop, hidx_len]
          omega
        · rw [List.getElem_drop]
          rw [← hq3]
          congr 1
          omega
      rw [if_pos hmem]
  · exact List.disjoint_take_drop (argsortAsc_nodup _) (by omega)
  · rw [List.length_take, List.length_drop, hidx_len]
    omega

/-- Witness for C1 (amended) on `[3,1,4,2]` with density 1/2 and
`gamma = 1/4` (`n_top = 1`, `n_bot = 1`, `target_n = 2`). -/
theorem magnitude_outliers_band_witness :
    countOnes (magnitude_outliers_mask [3, 1, 4, 2] (1/2) (1/4))
        = (mo_target_n [3, 1, 4, 2] (1/2)).toNat ∧
    pySlice (argsortAsc (([3, 1, 4, 2] : List ℚ).map abs))
        (mo_n_bot [3, 1, 4, 2] (1/2) (1/4)) (-(mo_n_top [3, 1, 4, 2] (1/2) (1/4)))
      = ((argsortAsc (([3, 1, 4, 2] : List ℚ).map abs)).drop
            (mo_n_bot [3, 1, 4, 2] (1/2) (1/4)).toNat).take
          (mo_target_n [3, 1, 4, 2] (1/2)).toNat ∧
    (∀ p : ℕ, p < ([3, 1, 4, 2] : List ℚ).length →
      ((magnitude_outliers_mask [3, 1, 4, 2] (1/2) (1/4)).getD p 0 = 1 ↔
        ∃ q : ℕ, (mo_n_bot [3, 1, 4, 2] (1/2) (1/4)).toNat ≤ q ∧
          q < ([3, 1, 4, 2] : List ℚ).length -
            (mo_n_top [3, 1, 4, 2] (1/2) (1/4)).toNat ∧
          (argsortAsc (([3, 1, 4, 2] : List ℚ).map abs)).getD q 0 = p)) ∧
    List.Disjoint
      ((argsortAsc (([3, 1, 4, 2] : List ℚ).map abs)).take
        (mo_n_bot [3, 1, 4, 2] (1/2) (1/4)).toNat)
      ((argsortAsc (([3, 1, 4, 2] : List ℚ).map abs)).drop
        (([3, 1, 4, 2] : List ℚ).length -
          (mo_n_top [3, 1, 4, 2] (1/2) (1/4)).toNat)) ∧
    ((argsortAsc (([3, 1, 4, 2] : List ℚ).map abs)).take
        (mo_n_bot [3, 1, 4, 2] (1/2) (1/4)).toNat).length
      + ((argsortAsc (([3, 1, 4, 2] : List ℚ).map abs)).drop
          (([3, 1, 4, 2] : List ℚ).length -
            (mo_n_top [3, 1, 4, 2] (1/2) (1/4)).toNat)).length
      = (mo_n_bot [3, 1, 4, 2] (1/2) (1/4)).toNat
        + (mo_n_top [3, 1, 4, 2] (1/2) (1/4)).toNat :=
  magnitude_outliers_band [3, 1, 4, 2] (1/2) (1/4) (by norm_num) (by norm_num)
    (by norm_num) (by with_unfolding_all decide)

/-! ### Claim C4 -/

lemma rowRanks_length (row : List ℚ) : (rowRanks row).length = row.length := by
  simp [rowRanks]

lemma rowProbs_some_length {d ε : ℚ} {row pr : List ℚ}
    (h : rowProbs d ε row = some pr) : pr.length = row.length := by
  simp only [rowProbs] at h
  split_ifs at h with h1 h2
  · rw [Option.some_inj] at h
    rw [← h, List.length_map, rowRanks_length]

lemma allRowProbs_some {d ε : ℚ} {rows probRows : List (List ℚ)}
    (h : allRowProbs d ε rows = some probRows) :
    List.Forall₂ (fun row pr => rowProbs d ε row = some pr) rows probRows := by
  induction rows generalizing probRows with
  | nil =>
    simp only [allRowProbs, Option.some_inj] at h
    rw [← h]
    exact List.Forall₂.nil
  | cons r rs ih =>
    simp only [allRowProbs] at h
    cases hr : rowProbs d ε r with
    | none => simp [hr] at h
    | some pr =>
      cases hrs : allRowProbs d ε rs with
      | none => simp [hr, hrs] at h
      | some prs =>
        simp only [hr, hrs, Option.some_inj] at h
        rw [← h]
        exact List.Forall₂.cons hr (ih hrs)

lemma rmMaskRows_length (u : ℕ → ℕ → ℚ) (probRows : List (List ℚ)) :
    (rmMaskRows u probRows).length = probRows.length := by
  simp [rmMaskRows]

lemma rmResRows_length (rescale : Bool) (u : ℕ → ℕ → ℚ)
    (rows probRows : List (List ℚ)) (hlen : rows.length = probRows.length) :
    (rmResRows rescale u rows probRows).length = rows.length := by
  unfold rmResRows
  split_ifs <;> simp [List.length_zipWith, rmMaskRows_length] <;> omega

lemma rmResRows_head_length (rescale : Bool) (u : ℕ → ℕ → ℚ)
    (row pr : List ℚ) (rows probRows : List (List ℚ))
    (hpr : pr.length = row.length) :
    ((rmResRows rescale u (row :: rows) (pr :: probRows)).headD []).length
      = row.length := by
  unfold rmResRows rmMaskRows
  cases rescale <;>
    simp [List.mapIdx_cons, tmul, List.length_zipWith, List.length_mapIdx, hpr]

/-- Claim C4 counterexample: a rank-2 input of shape `(1, 2)` comes back
as shape `(2,)` because the final `squeeze(0)` is unconditional, not
restricted to inputs that were rank-expanded. -/
theorem rank_magnitude_squeeze_counterexample :
    rank_magnitude (.mat [[1, 2]]) (1/2) false (1/20) uZero = .ok (.vec [1, 2]) ∧
    Tensor2.shape (.vec [1, 2]) ≠ Tensor2.shape (.mat [[1, 2]]) :=
  ⟨by with_unfolding_all rfl, by decide⟩

/-- Claim C4 (amended): when `rank_magnitude` returns (density < 1 and the
band precondition satisfied via success), the output has the input's
shape, except that a rank-2 input with exactly one row is squeezed down to
rank 1: a 1-D input of length n returns shape `[n]`, a matrix with 2 or
more rows (or zero rows) keeps its shape, and a 1-row matrix `(1, n)`
returns shape `[n]`. -/
theorem rank_magnitude_shape (t : Tensor2) (density : ℚ) (rescale : Bool)
    (epsilon : ℚ) (u : ℕ → ℕ → ℚ) (out : Tensor2) (hd : density < 1)
    (h : rank_magnitude t density rescale epsilon u = .ok out) :
    out.shape = (match t with
      | .mat (row :: []) => [row.length]
      | _ => t.shape) := by
  unfold rank_magnitude at h
  rw [if_neg (not_le.mpr hd)] at h
  by_cases hband : density ≤ epsilon ∨ 1 - epsilon ≤ density
  · rw [if_pos hband] at h
    cases h
  rw [if_neg hband] at h
  cases hprobs : allRowProbs density epsilon t.rows with
  | none =>
    simp only [hprobs] at h
    cases h
  | some probRows =>
    simp only [hprobs] at h
    by_cases hall : (probRows.all
        fun pr => pr.all fun p => decide (0 ≤ p) && decide (p ≤ 1)) = true
    · rw [if_pos hall] at h
      rw [Except.ok.injEq] at h
      subst h
      have hF := allRowProbs_some hprobs
      have hlen : t.rows.length = probRows.length := hF.length_eq
      have hres_len : (rmResRows rescale u t.rows probRows).length
          = t.rows.length := rmResRows_length rescale u t.rows probRows hlen
      cases t with
      | vec v =>
        simp only [Tensor2.rows] at hF hres_len
        cases hF with
        | cons hvp htail =>
          cases htail
          rename_i pr
          have hpr : pr.length = v.length := rowProbs_some_length hvp
          obtain ⟨r, hr⟩ := List.length_eq_one.mp hres_len
          have hhead :
              ((rmResRows rescale u [v] [pr]).headD []).length = v.length :=
            rmResRows_head_length rescale u v pr [] [] hpr
          rw [hr] at hhead
          simp only [List.headD_cons] at hhead
          show (rmSqueeze (rmResRows rescale u [v] [pr])).shape = [v.length]
          rw [hr]
          simp [rmSqueeze, Tensor2.shape, hhead]
      | mat m =>
        simp only [Tensor2.rows] at hF hres_len
        cases m with
        | nil =>
          cases hF
          have hnil : rmResRows rescale u [] [] = [] := by
            cases rescale <;> rfl
          show (rmSqueeze (rmResRows rescale u [] [])).shape = [0, 0]
          rw [hnil]
          simp [rmSqueeze, Tensor2.shape]
        | cons row m' =>
          cases hF with
          | cons hvp htail =>
            rename_i pr prs
            have hpr : pr.length = row.length := rowProbs_some_length hvp
            cases m' with
            | nil =>
              cases htail
              obtain ⟨r, hr⟩ := List.length_eq_one.mp hres_len
              have hhead :
                  ((rmResRows rescale u [row] [pr]).headD []).length
                    = row.length :=
                rmResRows_head_length rescale u row pr [] [] hpr
              rw [hr] at hhead
              simp only [List.headD_cons] at hhead
              show (rmSqueeze (rmResRows rescale u [row] [pr])).shape
                = [row.length]
              rw [hr]
              simp [rmSqueeze, Tensor2.shape, hhead]
            | cons row2 m'' =>
              have hhead :
                  ((rmResRows rescale u (row :: row2 :: m'')
                      (pr :: prs)).headD []).length = row.length :=
                rmResRows_head_length rescale u row pr (row2 :: m'') prs hpr
              show (rmSqueeze (rmResRows rescale u (row :: row2 :: m'')
                  (pr :: prs))).shape = [(row :: row2 :: m'').length, row.length]
              cases hres : rmResRows rescale u (row :: row2 :: m'') (pr :: prs) with
              | nil =>
                rw [hres] at hres_len
                simp at hres_len
              | cons a tail =>
                cases tail with
                | nil =>
                  rw [hres] at hres_len
                  simp at hres_len
                | cons b rest =>
                  rw [hres] at hhead hres_len
                  simp only [List.headD_cons] at hhead
                  simp only [List.length_cons] at hres_len
                  show (Tensor2.mat (a :: b :: rest)).shape
                    = [(row :: row2 :: m'').length, row.length]
                  simp [Tensor2.shape, hhead, hres_len]
    · rw [if_neg hall] at h
      cases h

/-- Witness for C4 (amended): a 1-D tensor of length 2 keeps its shape. -/
theorem rank_magnitude_shape_witness :
    Tensor2.shape (.vec [1, 2]) = (match (Tensor2.vec [1, 2] : Tensor2) with
      | .mat (row :: []) => [row.length]
      | _ => Tensor2.shape (.vec [1, 2])) :=
  rank_magnitude_shape (.vec [1, 2]) (1/2) false (1/20) uZero (.vec [1, 2])
    (by norm_num) (by with_unfolding_all rfl)

end Mergekit
